import Mathlib

/-!
Verification of the shared-memory single-producer/single-consumer ring buffer
of the osx-mic-noise-suppressor repository.

Embedding notes (all definitions are translated from the C++ sources):

* `src/Driver/SharedMemory.hpp` defines `SharedAudioBuffer`, a fixed-capacity
  ring buffer of interleaved float samples with two `uint64_t` cursors.
  Float samples are only ever copied or overwritten with the all-zero pattern
  (`0.0f`); the code performs no floating-point arithmetic.  We therefore model
  a sample by its 32-bit pattern, a natural number (`Sample`).

* The two cursors `writeIndex`/`readIndex` are `uint64_t` values that increase
  monotonically ("never wrapped" per the documentation; wrapping would need
  2^64 frames).  We model them as unbounded naturals and make every
  *observation* of them go through the `uint64_t` arithmetic the C++ performs:
  the subtractions in `availableToRead`/`availableToWrite` are written with an
  explicit wrap modulo 2^64 (`sub64`), and the slot computation
  `(pos + i) % kRingBufferFrames` agrees with the C++
  `((pos + i) mod 2^64) mod kRingBufferFrames` because `kRingBufferFrames`
  (4096) divides 2^64.  Hence every branch decision, every stored sample and
  every returned sample of the model coincides with the C++ behaviour.

* The C++ `for` loops are modelled by `iterUp`, which applies the loop body at
  `0, 1, ..., n-1` in that order, so overwrite order is preserved exactly.
-/

/-- A 32-bit float sample, modelled by its bit pattern: the ring-buffer code
only copies samples and stores the all-zero pattern (`0.0f`), never computes
with them, so bit patterns capture the behaviour exactly. -/
abbrev Sample := Nat

/-- The modulus 2^64 of `uint64_t` arithmetic. -/
def U64 : Nat := 2 ^ 64

/-- Source constant `constexpr size_t kRingBufferFrames = 4096;`. -/
def kRingBufferFrames : Nat := 4096

/-- Source constant `constexpr size_t kChannels = 2;`. -/
def kChannels : Nat := 2

/-- Source constant `constexpr size_t kSampleRate = 48000;`. -/
def kSampleRate : Nat := 48000

/-- Wrapping `uint64_t` subtraction `a - b`, applied to the (unbounded)
model counters: both operands are first reduced to their stored 64-bit
values. -/
def sub64 (a b : Nat) : Nat := (a % U64 + U64 - b % U64) % U64

/-- Pointwise update of a storage function: `d[k] = v`. -/
def upd (d : Nat → Sample) (k : Nat) (v : Sample) : Nat → Sample :=
  fun j => if j = k then v else d j

/-- Loop combinator: `iterUp f n a` runs the loop body `f` at indices `0, 1, ..., n-1` in
ascending order starting from accumulator `a` — the shape of the C++
`for (i = 0; i < n; i++)` loops. -/
def iterUp (f : Nat → (Nat → Sample) → (Nat → Sample)) : Nat → (Nat → Sample) → (Nat → Sample)
  | 0, d => d
  | n + 1, d => f n (iterUp f n d)

/-- The inner channel loop of `write`/`read`: stores `g ch` at consecutive
indices `base + ch` for `ch = 0, ..., count-1`. -/
def fillSeg (base : Nat) (g : Nat → Sample) (count : Nat) (d : Nat → Sample) : Nat → Sample :=
  iterUp (fun ch d2 => upd d2 (base + ch) (g ch)) count d

/-- The underrun zero-fill loop of `read`:
`for (i = 0; i < frameCount * channels; i++) samples[i] = 0.0f;`. -/
def zeroFill (count : Nat) (dest : Nat → Sample) : Nat → Sample :=
  iterUp (fun i d => upd d i 0) count dest

/-- The copy-in loop of `SharedAudioBuffer::write`: for each frame `i`, for
each channel `ch`, `audioData[index * channels + ch] = samples[i * channels + ch]`
with `index = (writePos + i) % kRingBufferFrames`. -/
def writeChunk (chs : Nat) (samples : Nat → Sample) (writePos : Nat) (frameCount : Nat)
    (data : Nat → Sample) : Nat → Sample :=
  iterUp
    (fun i d =>
      fillSeg (((writePos + i) % kRingBufferFrames) * chs)
        (fun ch => samples (i * chs + ch)) chs d)
    frameCount data

/-- The copy-out loop of `SharedAudioBuffer::read`: for each frame `i`, for
each channel `ch`, `samples[i * channels + ch] = audioData[index * channels + ch]`
with `index = (readPos + i) % kRingBufferFrames`. -/
def readChunk (chs : Nat) (data : Nat → Sample) (readPos : Nat) (frameCount : Nat)
    (dest : Nat → Sample) : Nat → Sample :=
  iterUp
    (fun i d =>
      fillSeg (i * chs)
        (fun ch => data (((readPos + i) % kRingBufferFrames) * chs + ch)) chs d)
    frameCount dest

/-- The `struct SharedAudioBuffer` from `src/Driver/SharedMemory.hpp`.  The
`audioData` array (`float[kRingBufferFrames * kChannels]`) is modelled as a
total function on indices; in-bounds access is proved, not assumed. -/
structure SharedAudioBuffer where
  writeIndex : Nat
  readIndex : Nat
  isActive : Bool
  sampleRate : Nat
  channels : Nat
  bufferFrames : Nat
  audioData : Nat → Sample

namespace SharedAudioBuffer

/-- Method `availableToRead()`: `writeIndex - readIndex` in `uint64_t` arithmetic
(the acquire/relaxed memory orders have no effect in this sequential model). -/
def availableToRead (s : SharedAudioBuffer) : Nat :=
  sub64 s.writeIndex s.readIndex

/-- Method `availableToWrite()`: `kRingBufferFrames - (writeIndex - readIndex)` in
`uint64_t` arithmetic. -/
def availableToWrite (s : SharedAudioBuffer) : Nat :=
  (kRingBufferFrames + U64 - sub64 s.writeIndex s.readIndex) % U64

/-- Method `SharedAudioBuffer::write(const float* samples, uint64_t frameCount)`:
fails (returning `false`, state untouched) when `availableToWrite() < frameCount`;
otherwise copies the frames in and advances `writeIndex` by `frameCount`.
Returns the C++ return value paired with the post state. -/
def write (s : SharedAudioBuffer) (samples : Nat → Sample) (frameCount : Nat) :
    Bool × SharedAudioBuffer :=
  if s.availableToWrite < frameCount then
    (false, s)
  else
    (true,
     { s with
        audioData := writeChunk s.channels samples s.writeIndex frameCount s.audioData,
        writeIndex := s.writeIndex + frameCount })

/-- Method `SharedAudioBuffer::read(float* samples, uint64_t frameCount)`: on underrun
(`availableToRead() < frameCount`) fills `frameCount * channels` destination
samples with zeros, returns `false` and leaves the buffer untouched; otherwise
copies the frames out and advances `readIndex` by `frameCount`.  The zero-fill
loop bound `frameCount * channels` is `uint64_t` arithmetic in the C++, so it
is taken modulo 2^64 (at `frameCount = 2^63`, `channels = 2` the program
zero-fills nothing).  Returns the C++ return value, the destination buffer
after the call, and the post state. -/
def read (s : SharedAudioBuffer) (dest : Nat → Sample) (frameCount : Nat) :
    Bool × (Nat → Sample) × SharedAudioBuffer :=
  if s.availableToRead < frameCount then
    (false, zeroFill ((frameCount * s.channels) % U64) dest, s)
  else
    (true, readChunk s.channels s.audioData s.readIndex frameCount dest,
     { s with readIndex := s.readIndex + frameCount })

end SharedAudioBuffer

/-- The freshly created shared segment: both cursors zero, inactive, metadata
at their compile-time constants, storage zero-filled (the segment bytes come
from `ftruncate`, hence zero). -/
def initBuffer : SharedAudioBuffer :=
  { writeIndex := 0
    readIndex := 0
    isActive := false
    sampleRate := kSampleRate
    channels := kChannels
    bufferFrames := kRingBufferFrames
    audioData := fun _ => 0 }

/-- The spec's invariant on the ring-buffer state: driver-compatible channel
count, and the cursor ordering/capacity bounds from the data model. -/
def RBInv (s : SharedAudioBuffer) : Prop :=
  s.channels = kChannels ∧
  s.readIndex ≤ s.writeIndex ∧
  s.writeIndex - s.readIndex ≤ kRingBufferFrames

/-! ## Driver side (`src/Driver/Driver.cpp`) -/

/-- Source constant `constexpr UInt32 ChannelCount = 2;` (stream format of the driver). -/
def ChannelCount : Nat := 2

/-- State of `class SharedMemoryReader`: the file descriptor `fd_`
(`-1` when closed) and the mapped buffer `buffer_` (`none` for `nullptr`). -/
structure SharedMemoryReader where
  fd : Int
  buffer : Option SharedAudioBuffer

/-- The operating-system responses to one open+map attempt: `openFd` is the
result of `shm_open` (`none` for `-1`), and `mapped` is the result of `mmap`
when the open succeeded (`none` for `MAP_FAILED`, otherwise the contents of
the mapped segment). -/
structure ShmEnv where
  openFd : Option Int
  mapped : Option SharedAudioBuffer

/-- Method `SharedMemoryReader::tryReconnect()`: trivially succeeds when already
mapped; otherwise attempts `shm_open` then `mmap`, closing the descriptor and
nulling the handle on map failure. -/
def tryReconnect (st : SharedMemoryReader) (env : ShmEnv) : Bool × SharedMemoryReader :=
  match st.buffer with
  | some _ => (true, st)
  | none =>
    match env.openFd with
    | none => (false, { st with fd := -1 })
    | some fd =>
      match env.mapped with
      | none => (false, { fd := -1, buffer := none })
      | some b => (true, { fd := fd, buffer := some b })

/-- The call `std::memset(samples, 0, bytesCount)` on a float destination: every float
fully covered by the zeroed byte range (index `< bytesCount / 4`) becomes the
zero pattern.  (A trailing partially-covered float is never inspected by any
property, since `numSamples * ChannelCount <= bytesCount / 4`.) -/
def memsetZero (dest : Nat → Sample) (bytesCount : Nat) : Nat → Sample :=
  fun j => if j < bytesCount / 4 then 0 else dest j

/-- Handler `MicNoiseGateIOHandler::OnReadClientInput`: computes
`numSamples = bytesCount / sizeof(float) / ChannelCount`, reconnects if not
mapped, then either reads from the shared buffer (zeroing the destination on
underrun) or outputs silence when unmapped or inactive.  Returns the
destination buffer after the call and the handler state after the call. -/
def OnReadClientInput (st : SharedMemoryReader) (env : ShmEnv) (dest : Nat → Sample)
    (bytesCount : Nat) : (Nat → Sample) × SharedMemoryReader :=
  let numSamples := bytesCount / 4 / ChannelCount
  let st1 := if st.buffer.isNone then (tryReconnect st env).2 else st
  match st1.buffer with
  | some shm =>
    if shm.isActive then
      let res := shm.read dest numSamples
      if res.1 then
        (res.2.1, { st1 with buffer := some res.2.2 })
      else
        (memsetZero res.2.1 bytesCount, { st1 with buffer := some res.2.2 })
    else
      (memsetZero dest bytesCount, st1)
  | none => (memsetZero dest bytesCount, st1)

/-! ## Traces of write/read operations and the FIFO specification -/

/-- One ring-buffer operation: a producer `write` of `n` frames taken from a
sample source, or a consumer `read` of `n` frames. -/
inductive Op where
  | wr (samples : Nat → Sample) (n : Nat)
  | rd (n : Nat)

/-- The frame at logical position `i` past the read cursor: the list of its
`channels` samples as stored in the ring. -/
def frameAt (s : SharedAudioBuffer) (i : Nat) : List Sample :=
  (List.range s.channels).map fun ch =>
    s.audioData (((s.readIndex + i) % kRingBufferFrames) * s.channels + ch)

/-- The unread contents of the ring buffer, as the list of pending frames in
arrival order. -/
def contents (s : SharedAudioBuffer) : List (List Sample) :=
  (List.range s.availableToRead).map (frameAt s)

/-- The `n` frames (of `chs` channels each) denoted by an interleaved sample
source, in order. -/
def inputFrames (samples : Nat → Sample) (n chs : Nat) : List (List Sample) :=
  (List.range n).map fun i => (List.range chs).map fun ch => samples (i * chs + ch)

/-- The `n` stereo frames held in a destination buffer after a read. -/
def outFrames (out : Nat → Sample) (n : Nat) : List (List Sample) :=
  (List.range n).map fun i =>
    (List.range kChannels).map fun ch => out (i * kChannels + ch)

/-- Run a list of operations on the ring buffer, collecting the frames
delivered by each read (reads use a zero-initialised scratch destination). -/
def runOps (s : SharedAudioBuffer) : List Op → SharedAudioBuffer × List (List (List Sample))
  | [] => (s, [])
  | Op.wr samples n :: ops => runOps (s.write samples n).2 ops
  | Op.rd n :: ops =>
    let res := s.read (fun _ => 0) n
    let rest := runOps res.2.2 ops
    (rest.1, outFrames res.2.1 n :: rest.2)

/-- Run the same operations on an ideal FIFO queue of frames: writes enqueue
their frames, reads dequeue and deliver the first `n` frames. -/
def runFifo (q : List (List Sample)) : List Op → List (List Sample) × List (List (List Sample))
  | [] => (q, [])
  | Op.wr samples n :: ops => runFifo (q ++ inputFrames samples n kChannels) ops
  | Op.rd n :: ops =>
    let rest := runFifo (q.drop n) ops
    (rest.1, q.take n :: rest.2)

/-- Trace admissibility: `fits s ops` checks that along the trace every write fits into the free
space and every read requests no more than is pending — the premise of the
round-trip property (no dropped writes, no underrun reads). -/
def fits (s : SharedAudioBuffer) : List Op → Bool
  | [] => true
  | Op.wr samples n :: ops =>
    decide (n ≤ s.availableToWrite) && fits (s.write samples n).2 ops
  | Op.rd n :: ops =>
    decide (n ≤ s.availableToRead) && fits (s.read (fun _ => 0) n).2.2 ops

/-! ## Loop characterization lemmas -/

/-- Pointwise view of `fillSeg`: positions in `[base, base + count)` hold the copied
values, all others are untouched. -/
theorem fillSeg_apply (base : Nat) (g : Nat → Sample) (count : Nat) (d : Nat → Sample)
    (j : Nat) :
    fillSeg base g count d j =
      if base ≤ j ∧ j < base + count then g (j - base) else d j := by
  induction count with
  | zero =>
    have h : ¬(base ≤ j ∧ j < base + 0) := by omega
    simp only [fillSeg, iterUp, if_neg h]
  | succ c ih =>
    have hstep : fillSeg base g (c + 1) d = upd (fillSeg base g c d) (base + c) (g c) := rfl
    rw [hstep]
    unfold upd
    by_cases hj : j = base + c
    · subst hj
      have h1 : base ≤ base + c ∧ base + c < base + (c + 1) := by omega
      simp [h1]
    · rw [if_neg hj, ih]
      by_cases h2 : base ≤ j ∧ j < base + c
      · have h3 : base ≤ j ∧ j < base + (c + 1) := by omega
        rw [if_pos h2, if_pos h3]
      · have h3 : ¬(base ≤ j ∧ j < base + (c + 1)) := by omega
        rw [if_neg h2, if_neg h3]

/-- Pointwise view of `zeroFill`: the first `count` positions are zeroed, the rest are
untouched. -/
theorem zeroFill_apply (count : Nat) (dest : Nat → Sample) (j : Nat) :
    zeroFill count dest j = if j < count then 0 else dest j := by
  induction count with
  | zero => simp only [zeroFill, iterUp, Nat.not_lt_zero, if_false]
  | succ c ih =>
    have hstep : zeroFill (c + 1) dest = upd (zeroFill c dest) c 0 := rfl
    rw [hstep]
    unfold upd
    by_cases hj : j = c
    · subst hj; simp
    · rw [if_neg hj, ih]
      by_cases h2 : j < c
      · rw [if_pos h2, if_pos (by omega)]
      · rw [if_neg h2, if_neg (by omega)]

/-- Wrapping subtraction computes the exact difference whenever the true
difference fits in 64 bits (in particular under the ring-buffer invariant). -/
theorem sub64_eq {a b : Nat} (hba : b ≤ a) (h : a - b < U64) : sub64 a b = a - b := by
  have hU : U64 = 18446744073709551616 := rfl
  unfold sub64
  rw [hU] at h ⊢
  omega

/-- Under the invariant, `availableToRead()` is the exact pending frame count. -/
theorem availableToRead_eq (s : SharedAudioBuffer)
    (h1 : s.readIndex ≤ s.writeIndex)
    (h2 : s.writeIndex - s.readIndex ≤ kRingBufferFrames) :
    s.availableToRead = s.writeIndex - s.readIndex := by
  have hc : kRingBufferFrames = 4096 := rfl
  have hU : (4096 : Nat) < U64 := by
    have hU' : U64 = 18446744073709551616 := rfl
    omega
  exact sub64_eq h1 (by omega)

/-- Under the invariant, `availableToWrite()` is the exact free frame count. -/
theorem availableToWrite_eq (s : SharedAudioBuffer)
    (h1 : s.readIndex ≤ s.writeIndex)
    (h2 : s.writeIndex - s.readIndex ≤ kRingBufferFrames) :
    s.availableToWrite = kRingBufferFrames - (s.writeIndex - s.readIndex) := by
  have hc : kRingBufferFrames = 4096 := rfl
  have hU : U64 = 18446744073709551616 := rfl
  unfold SharedAudioBuffer.availableToWrite
  have hd : s.writeIndex - s.readIndex < U64 := by rw [hU]; omega
  rw [sub64_eq h1 hd, hc, hU]
  omega

/-- Two channel segments of the interleaved storage are disjoint when they
belong to different slots. -/
theorem seg_disjoint {slot slot' chs ch : Nat} (hne : slot ≠ slot') (hch : ch < chs) :
    ¬(slot' * chs ≤ slot * chs + ch ∧ slot * chs + ch < slot' * chs + chs) := by
  rintro ⟨h1, h2⟩
  rcases Nat.lt_or_ge slot slot' with h | h
  · have hlt : slot * chs + ch < slot' * chs := by
      calc slot * chs + ch < slot * chs + chs := by omega
        _ = (slot + 1) * chs := by ring
        _ ≤ slot' * chs := Nat.mul_le_mul_right _ (by omega)
    omega
  · have hlt : slot' < slot := by omega
    have hle : slot' * chs + chs ≤ slot * chs := by
      calc slot' * chs + chs = (slot' + 1) * chs := by ring
        _ ≤ slot * chs := Nat.mul_le_mul_right _ (by omega)
    omega

/-- Distinct frame offsets below the capacity map to distinct slots. -/
theorem slots_distinct {pos i j n : Nat} (hi : i < n) (hj : j < n) (hne : i ≠ j)
    (hn : n ≤ kRingBufferFrames) :
    (pos + i) % kRingBufferFrames ≠ (pos + j) % kRingBufferFrames := by
  have hc : kRingBufferFrames = 4096 := rfl
  rw [hc] at hn ⊢
  omega

/-- Frame property: `writeChunk` leaves every storage position outside the written channel
segments untouched. -/
theorem writeChunk_untouched (chs : Nat) (samples : Nat → Sample) (pos n : Nat)
    (data : Nat → Sample) (j : Nat)
    (h : ∀ i, i < n → ¬(((pos + i) % kRingBufferFrames) * chs ≤ j ∧
          j < ((pos + i) % kRingBufferFrames) * chs + chs)) :
    writeChunk chs samples pos n data j = data j := by
  induction n with
  | zero => rfl
  | succ m ih =>
    have hstep : writeChunk chs samples pos (m + 1) data =
        fillSeg (((pos + m) % kRingBufferFrames) * chs) (fun ch => samples (m * chs + ch))
          chs (writeChunk chs samples pos m data) := rfl
    rw [hstep, fillSeg_apply, if_neg (h m (by omega))]
    exact ih (fun i hi => h i (by omega))

/-- Copy-in property: `writeChunk` stores sample `(i, ch)` of the source at slot
`(pos + i) % kRingBufferFrames`, channel `ch` — provided at most a full ring
of frames is written, so no slot is visited twice. -/
theorem writeChunk_written (chs : Nat) (samples : Nat → Sample) (pos n : Nat)
    (data : Nat → Sample) {i ch : Nat}
    (hi : i < n) (hch : ch < chs) (hn : n ≤ kRingBufferFrames) :
    writeChunk chs samples pos n data (((pos + i) % kRingBufferFrames) * chs + ch) =
      samples (i * chs + ch) := by
  induction n with
  | zero => omega
  | succ m ih =>
    have hstep : writeChunk chs samples pos (m + 1) data =
        fillSeg (((pos + m) % kRingBufferFrames) * chs) (fun ch => samples (m * chs + ch))
          chs (writeChunk chs samples pos m data) := rfl
    rw [hstep, fillSeg_apply]
    by_cases him : i = m
    · subst him
      rw [if_pos ⟨Nat.le_add_right _ _, by omega⟩]
      congr 1
      omega
    · have hslot : (pos + i) % kRingBufferFrames ≠ (pos + m) % kRingBufferFrames :=
        slots_distinct hi (by omega) him hn
      rw [if_neg (seg_disjoint hslot hch)]
      exact ih (by omega) (by omega)

/-- Copy-out property: `readChunk` delivers sample `(i, ch)` of the ring at destination position
`i * chs + ch`. -/
theorem readChunk_written (chs : Nat) (data : Nat → Sample) (pos n : Nat)
    (dest : Nat → Sample) {i ch : Nat} (hi : i < n) (hch : ch < chs) :
    readChunk chs data pos n dest (i * chs + ch) =
      data (((pos + i) % kRingBufferFrames) * chs + ch) := by
  induction n with
  | zero => omega
  | succ m ih =>
    have hstep : readChunk chs data pos (m + 1) dest =
        fillSeg (m * chs) (fun ch => data (((pos + m) % kRingBufferFrames) * chs + ch))
          chs (readChunk chs data pos m dest) := rfl
    rw [hstep, fillSeg_apply]
    by_cases him : i = m
    · subst him
      rw [if_pos ⟨Nat.le_add_right _ _, by omega⟩]
      congr 1
      omega
    · rw [if_neg (seg_disjoint him hch)]
      exact ih (by omega)

/-- Frame property: `readChunk` leaves destination positions past the delivered samples
untouched. -/
theorem readChunk_untouched (chs : Nat) (data : Nat → Sample) (pos n : Nat)
    (dest : Nat → Sample) (j : Nat) (h : n * chs ≤ j) :
    readChunk chs data pos n dest j = dest j := by
  induction n with
  | zero => rfl
  | succ m ih =>
    have hstep : readChunk chs data pos (m + 1) dest =
        fillSeg (m * chs) (fun ch => data (((pos + m) % kRingBufferFrames) * chs + ch))
          chs (readChunk chs data pos m dest) := rfl
    have hrw : (m + 1) * chs = m * chs + chs := by ring
    rw [hrw] at h
    rw [hstep, fillSeg_apply, if_neg (by omega)]
    exact ih (by omega)

/-! ## Claim theorems: single-operation properties -/

/-- Claim C2: for every `frameCount <= capacityFrames`, writing in a state
(satisfying the data-model invariant) with `availableToWrite() >= frameCount`
returns the success signal, advances `writeIndex` by exactly `frameCount`, and
increases `availableToRead()` by exactly `frameCount`. -/
theorem write_success_postcondition (s : SharedAudioBuffer) (samples : Nat → Sample)
    (frameCount : Nat)
    (h1 : s.readIndex ≤ s.writeIndex)
    (h2 : s.writeIndex - s.readIndex ≤ kRingBufferFrames)
    (hn : frameCount ≤ kRingBufferFrames)
    (hav : frameCount ≤ s.availableToWrite) :
    (s.write samples frameCount).1 = true ∧
    (s.write samples frameCount).2.writeIndex = s.writeIndex + frameCount ∧
    (s.write samples frameCount).2.availableToRead = s.availableToRead + frameCount := by
  have hW := availableToWrite_eq s h1 h2
  have hR := availableToRead_eq s h1 h2
  have hc : kRingBufferFrames = 4096 := rfl
  have hU : U64 = 18446744073709551616 := rfl
  have hg : ¬(s.availableToWrite < frameCount) := by omega
  unfold SharedAudioBuffer.write
  rw [if_neg hg]
  refine ⟨rfl, rfl, ?_⟩
  show sub64 (s.writeIndex + frameCount) s.readIndex = s.availableToRead + frameCount
  rw [sub64_eq (by omega) (by rw [hU]; omega), hR]
  omega

/-- Claim C2 witness: a concrete successful write on the fresh buffer. -/
theorem write_success_postcondition_witness :
    initBuffer.readIndex ≤ initBuffer.writeIndex ∧
    initBuffer.writeIndex - initBuffer.readIndex ≤ kRingBufferFrames ∧
    3 ≤ kRingBufferFrames ∧ 3 ≤ initBuffer.availableToWrite ∧
    ((initBuffer.write (fun j => j + 100) 3).1 = true ∧
     (initBuffer.write (fun j => j + 100) 3).2.writeIndex = initBuffer.writeIndex + 3 ∧
     (initBuffer.write (fun j => j + 100) 3).2.availableToRead =
       initBuffer.availableToRead + 3) :=
  ⟨Nat.le_refl 0, by decide, by decide, by decide,
   write_success_postcondition initBuffer (fun j => j + 100) 3
     (Nat.le_refl 0) (by decide) (by decide) (by decide)⟩

/-- Claim C3: a write that exceeds the free space returns `false` and leaves
the entire ring-buffer state — both cursors and every stored sample —
unchanged: the result state is literally the input state. -/
theorem write_overflow_no_mutation (s : SharedAudioBuffer) (samples : Nat → Sample)
    (frameCount : Nat) (h : s.availableToWrite < frameCount) :
    s.write samples frameCount = (false, s) := by
  unfold SharedAudioBuffer.write
  rw [if_pos h]

/-- Claim C3 witness: writing 5000 frames to the fresh (capacity 4096) buffer
fails without mutation. -/
theorem write_overflow_no_mutation_witness :
    initBuffer.availableToWrite < 5000 ∧
    initBuffer.write (fun _ => 7) 5000 = (false, initBuffer) :=
  ⟨by decide, write_overflow_no_mutation initBuffer (fun _ => 7) 5000 (by decide)⟩

/-- Claim C4 counterexample: at `frameCount = 2^63` (with the fresh buffer,
whose `channels = 2`) the underrun branch is taken and `0` lies below the
mathematical product `frameCount * channels`, yet the `uint64_t` loop bound
`2^63 * 2` wraps to `0`, so the destination is not zeroed: position 0 keeps
its prior value 9. -/
theorem read_underrun_wrap_counterexample :
    initBuffer.availableToRead < 2 ^ 63 ∧
    (0 : Nat) < 2 ^ 63 * initBuffer.channels ∧
    (initBuffer.read (fun _ => 9) (2 ^ 63)).1 = false ∧
    (initBuffer.read (fun _ => 9) (2 ^ 63)).2.1 0 = 9 :=
  ⟨by decide, by decide, by decide, by decide⟩

/-- Claim C4 (amended): a read requesting more frames than are pending, whose
`uint64_t` zero-fill bound `frameCount * channels` does not wrap, returns the
underrun signal, fills all `frameCount * channels` destination samples with
zeros, and leaves the ring-buffer state (in particular `readIndex`) untouched
— an all-or-nothing read. -/
theorem read_underrun_zero_fill_no_mutation (s : SharedAudioBuffer) (dest : Nat → Sample)
    (frameCount : Nat) (h : s.availableToRead < frameCount)
    (hw : frameCount * s.channels < U64) :
    (s.read dest frameCount).1 = false ∧
    (∀ j, j < frameCount * s.channels → (s.read dest frameCount).2.1 j = 0) ∧
    (s.read dest frameCount).2.2 = s := by
  unfold SharedAudioBuffer.read
  rw [if_pos h]
  exact ⟨rfl, fun j hj => by
    show zeroFill ((frameCount * s.channels) % U64) dest j = 0
    rw [Nat.mod_eq_of_lt hw, zeroFill_apply, if_pos hj], rfl⟩

/-- Claim C4 witness: reading 2 frames from the fresh (empty) buffer signals
underrun, zero-fills the destination and does not move `readIndex`. -/
theorem read_underrun_zero_fill_no_mutation_witness :
    initBuffer.availableToRead < 2 ∧
    2 * initBuffer.channels < U64 ∧
    ((initBuffer.read (fun _ => 9) 2).1 = false ∧
     (∀ j, j < 2 * initBuffer.channels → (initBuffer.read (fun _ => 9) 2).2.1 j = 0) ∧
     (initBuffer.read (fun _ => 9) 2).2.2 = initBuffer) :=
  ⟨by decide, by decide,
   read_underrun_zero_fill_no_mutation initBuffer (fun _ => 9) 2 (by decide) (by decide)⟩

/-- Claim C9: `write` never modifies `readIndex` and `read` never modifies
`writeIndex`; neither modifies `isActive`, `sampleRate`, `channels` or
`bufferFrames` (and `read` never modifies the stored samples).  The two
`available*` queries are modelled as pure functions of the state, so they
modify nothing by construction. -/
theorem single_writer_frame_condition (s : SharedAudioBuffer) (samples dest : Nat → Sample)
    (frameCount : Nat) :
    ((s.write samples frameCount).2.readIndex = s.readIndex ∧
     (s.write samples frameCount).2.isActive = s.isActive ∧
     (s.write samples frameCount).2.sampleRate = s.sampleRate ∧
     (s.write samples frameCount).2.channels = s.channels ∧
     (s.write samples frameCount).2.bufferFrames = s.bufferFrames) ∧
    ((s.read dest frameCount).2.2.writeIndex = s.writeIndex ∧
     (s.read dest frameCount).2.2.isActive = s.isActive ∧
     (s.read dest frameCount).2.2.sampleRate = s.sampleRate ∧
     (s.read dest frameCount).2.2.channels = s.channels ∧
     (s.read dest frameCount).2.2.bufferFrames = s.bufferFrames ∧
     (s.read dest frameCount).2.2.audioData = s.audioData) := by
  constructor
  · unfold SharedAudioBuffer.write
    by_cases h : s.availableToWrite < frameCount
    · rw [if_pos h]; exact ⟨rfl, rfl, rfl, rfl, rfl⟩
    · rw [if_neg h]; exact ⟨rfl, rfl, rfl, rfl, rfl⟩
  · unfold SharedAudioBuffer.read
    by_cases h : s.availableToRead < frameCount
    · rw [if_pos h]; exact ⟨rfl, rfl, rfl, rfl, rfl, rfl⟩
    · rw [if_neg h]; exact ⟨rfl, rfl, rfl, rfl, rfl, rfl⟩

/-- Claim C10: with the channel count at its creation value `kChannels`, every
storage index used by `write`/`read` — `((pos + i) mod capacityFrames) * channels + ch`
— is below `kRingBufferFrames * kChannels`, for arbitrarily large cursor
values (part 1); consequently `write` never touches storage at or beyond that
bound (part 2) and the samples `read` delivers depend only on storage below
that bound (part 3). -/
theorem audioData_access_in_bounds (s : SharedAudioBuffer) (samples dest : Nat → Sample)
    (frameCount : Nat) (hch : s.channels = kChannels) :
    (∀ pos i ch, ch < kChannels →
        ((pos + i) % kRingBufferFrames) * kChannels + ch < kRingBufferFrames * kChannels) ∧
    (∀ q, kRingBufferFrames * kChannels ≤ q →
        (s.write samples frameCount).2.audioData q = s.audioData q) ∧
    (∀ data2 : Nat → Sample,
        (∀ q, q < kRingBufferFrames * kChannels → data2 q = s.audioData q) →
        ∀ j, (SharedAudioBuffer.read { s with audioData := data2 } dest frameCount).2.1 j =
          (s.read dest frameCount).2.1 j) := by
  have e1 : kChannels = 2 := rfl
  have e2 : kRingBufferFrames = 4096 := rfl
  refine ⟨?_, ?_, ?_⟩
  · intro pos i ch hc2
    have h1 : (pos + i) % kRingBufferFrames < kRingBufferFrames :=
      Nat.mod_lt _ (by rw [e2]; omega)
    rw [e2] at h1
    rw [e1] at hc2
    rw [e1, e2]
    omega
  · intro q hq
    unfold SharedAudioBuffer.write
    by_cases hg : s.availableToWrite < frameCount
    · rw [if_pos hg]
    · rw [if_neg hg]
      show writeChunk s.channels samples s.writeIndex frameCount s.audioData q = s.audioData q
      apply writeChunk_untouched
      intro i hi
      rintro ⟨ha, hb⟩
      have hslot : (s.writeIndex + i) % kRingBufferFrames < kRingBufferFrames :=
        Nat.mod_lt _ (by rw [e2]; omega)
      rw [hch, e1, e2] at ha hb
      rw [e1, e2] at hq
      rw [e2] at hslot
      omega
  · intro data2 hagree j
    have havail : SharedAudioBuffer.availableToRead { s with audioData := data2 } =
        s.availableToRead := rfl
    unfold SharedAudioBuffer.read
    rw [havail]
    by_cases hg : s.availableToRead < frameCount
    · rw [if_pos hg, if_pos hg]
    · rw [if_neg hg, if_neg hg]
      show readChunk s.channels data2 s.readIndex frameCount dest j =
        readChunk s.channels s.audioData s.readIndex frameCount dest j
      rw [hch, e1]
      by_cases hj : j < frameCount * 2
      · have hdecomp : j = (j / 2) * 2 + j % 2 := by omega
        rw [hdecomp]
        rw [readChunk_written 2 data2 s.readIndex frameCount dest (by omega) (by omega),
          readChunk_written 2 s.audioData s.readIndex frameCount dest (by omega) (by omega)]
        apply hagree
        have hslot : (s.readIndex + j / 2) % kRingBufferFrames < kRingBufferFrames :=
          Nat.mod_lt _ (by rw [e2]; omega)
        rw [e2] at hslot
        rw [e1, e2]
        omega
      · rw [readChunk_untouched 2 data2 s.readIndex frameCount dest j (by omega),
          readChunk_untouched 2 s.audioData s.readIndex frameCount dest j (by omega)]

/-- Claim C10 witness: a concrete in-bounds index and the hypothesis at the
fresh buffer. -/
theorem audioData_access_in_bounds_witness :
    initBuffer.channels = kChannels ∧
    ((5 + 4100) % kRingBufferFrames) * kChannels + 1 < kRingBufferFrames * kChannels :=
  ⟨rfl, (audioData_access_in_bounds initBuffer (fun _ => 0) (fun _ => 0) 1 rfl).1 5 4100 1
    (by decide)⟩

/-! ## Invariant preservation (claim C5) -/

/-- A `write` call — successful or refused — preserves the ring-buffer
invariant. -/
theorem RBInv_write (s : SharedAudioBuffer) (samples : Nat → Sample) (n : Nat)
    (h : RBInv s) : RBInv (s.write samples n).2 := by
  obtain ⟨hc, h1, h2⟩ := h
  unfold SharedAudioBuffer.write
  by_cases hg : s.availableToWrite < n
  · rw [if_pos hg]; exact ⟨hc, h1, h2⟩
  · rw [if_neg hg]
    have hW := availableToWrite_eq s h1 h2
    show s.channels = kChannels ∧ s.readIndex ≤ s.writeIndex + n ∧
      s.writeIndex + n - s.readIndex ≤ kRingBufferFrames
    exact ⟨hc, by omega, by omega⟩

/-- A `read` call — successful or underrun — preserves the ring-buffer
invariant. -/
theorem RBInv_read (s : SharedAudioBuffer) (dest : Nat → Sample) (n : Nat)
    (h : RBInv s) : RBInv (s.read dest n).2.2 := by
  obtain ⟨hc, h1, h2⟩ := h
  unfold SharedAudioBuffer.read
  by_cases hg : s.availableToRead < n
  · rw [if_pos hg]; exact ⟨hc, h1, h2⟩
  · rw [if_neg hg]
    have hR := availableToRead_eq s h1 h2
    show s.channels = kChannels ∧ s.readIndex + n ≤ s.writeIndex ∧
      s.writeIndex - (s.readIndex + n) ≤ kRingBufferFrames
    exact ⟨hc, by omega, by omega⟩

/-- The invariant is preserved along every trace of operations. -/
theorem RBInv_runOps (ops : List Op) : ∀ s, RBInv s → RBInv (runOps s ops).1 := by
  induction ops with
  | nil => intro s h; exact h
  | cons op ops ih =>
    intro s h
    cases op with
    | wr samples n => exact ih _ (RBInv_write s samples n h)
    | rd n =>
      show RBInv (runOps (s.read (fun _ => 0) n).2.2 ops).1
      exact ih _ (RBInv_read s _ n h)

/-- The fresh buffer satisfies the invariant. -/
theorem RBInv_initBuffer : RBInv initBuffer :=
  ⟨rfl, Nat.le_refl 0, by decide⟩

/-- Claim C5: starting from the initial state (`writeIndex = readIndex = 0`),
every sequence of `write`/`read` operations preserves `writeIndex >= readIndex`
and `writeIndex - readIndex <= capacityFrames`; consequently
`availableToRead()` is always at most `capacityFrames` (it is a natural
number, hence non-negative). -/
theorem counter_invariants_preserved (ops : List Op) :
    (runOps initBuffer ops).1.readIndex ≤ (runOps initBuffer ops).1.writeIndex ∧
    (runOps initBuffer ops).1.writeIndex - (runOps initBuffer ops).1.readIndex ≤
      kRingBufferFrames ∧
    (runOps initBuffer ops).1.availableToRead ≤ kRingBufferFrames := by
  obtain ⟨hc, h1, h2⟩ := RBInv_runOps ops initBuffer RBInv_initBuffer
  have hR := availableToRead_eq _ h1 h2
  exact ⟨h1, h2, by omega⟩

/-! ## FIFO refinement of the ring buffer (claim C1) -/

/-- A successful write leaves every pending frame in place. -/
theorem frameAt_write_old (s : SharedAudioBuffer) (samples : Nat → Sample) (n i : Nat)
    (_hc : s.channels = kChannels) (h1 : s.readIndex ≤ s.writeIndex)
    (h2 : s.writeIndex - s.readIndex ≤ kRingBufferFrames)
    (hn : n ≤ s.availableToWrite) (hi : i < s.writeIndex - s.readIndex) :
    frameAt (s.write samples n).2 i = frameAt s i := by
  have hW := availableToWrite_eq s h1 h2
  have hcap : kRingBufferFrames = 4096 := rfl
  have hg : ¬(s.availableToWrite < n) := by omega
  unfold SharedAudioBuffer.write
  rw [if_neg hg]
  unfold frameAt
  show (List.range s.channels).map
      (fun ch => writeChunk s.channels samples s.writeIndex n s.audioData
        (((s.readIndex + i) % kRingBufferFrames) * s.channels + ch)) =
    (List.range s.channels).map
      (fun ch => s.audioData (((s.readIndex + i) % kRingBufferFrames) * s.channels + ch))
  apply List.map_congr_left
  intro ch hch
  rw [List.mem_range] at hch
  apply writeChunk_untouched
  intro i2 hi2
  have hslot : (s.readIndex + i) % kRingBufferFrames ≠
      (s.writeIndex + i2) % kRingBufferFrames := by
    rw [hW, hcap] at hn
    rw [hcap]
    omega
  exact seg_disjoint hslot hch

/-- A successful write places the `j`-th written frame at pending position
`(writeIndex - readIndex) + j`. -/
theorem frameAt_write_new (s : SharedAudioBuffer) (samples : Nat → Sample) (n j : Nat)
    (hc : s.channels = kChannels) (h1 : s.readIndex ≤ s.writeIndex)
    (h2 : s.writeIndex - s.readIndex ≤ kRingBufferFrames)
    (hn : n ≤ s.availableToWrite) (hj : j < n) :
    frameAt (s.write samples n).2 ((s.writeIndex - s.readIndex) + j) =
      (List.range kChannels).map fun ch => samples (j * kChannels + ch) := by
  have hW := availableToWrite_eq s h1 h2
  have hcap : kRingBufferFrames = 4096 := rfl
  have hg : ¬(s.availableToWrite < n) := by omega
  unfold SharedAudioBuffer.write
  rw [if_neg hg]
  unfold frameAt
  show (List.range s.channels).map
      (fun ch => writeChunk s.channels samples s.writeIndex n s.audioData
        (((s.readIndex + ((s.writeIndex - s.readIndex) + j)) % kRingBufferFrames) *
          s.channels + ch)) = _
  have hwj : s.readIndex + ((s.writeIndex - s.readIndex) + j) = s.writeIndex + j := by omega
  rw [hwj, hc]
  apply List.map_congr_left
  intro ch hch
  rw [List.mem_range] at hch
  apply writeChunk_written
  · exact hj
  · exact hch
  · rw [hW, hcap] at hn
    rw [hcap]
    omega

/-- A successful write appends exactly the written frames to the pending
contents, in order. -/
theorem contents_write (s : SharedAudioBuffer) (samples : Nat → Sample) (n : Nat)
    (hc : s.channels = kChannels) (h1 : s.readIndex ≤ s.writeIndex)
    (h2 : s.writeIndex - s.readIndex ≤ kRingBufferFrames)
    (hn : n ≤ s.availableToWrite) :
    contents (s.write samples n).2 = contents s ++ inputFrames samples n kChannels := by
  have hR := availableToRead_eq s h1 h2
  have hW := availableToWrite_eq s h1 h2
  have hU : U64 = 18446744073709551616 := rfl
  have hcap : kRingBufferFrames = 4096 := rfl
  have hg : ¬(s.availableToWrite < n) := by omega
  have havail : SharedAudioBuffer.availableToRead (s.write samples n).2 =
      (s.writeIndex - s.readIndex) + n := by
    unfold SharedAudioBuffer.write
    rw [if_neg hg]
    show sub64 (s.writeIndex + n) s.readIndex = _
    rw [sub64_eq (by omega) (by rw [hU]; rw [hW, hcap] at hn; omega)]
    omega
  unfold contents
  rw [havail, hR, List.range_add, List.map_append, List.map_map]
  congr 1
  · apply List.map_congr_left
    intro i hi
    rw [List.mem_range] at hi
    exact frameAt_write_old s samples n i hc h1 h2 hn hi
  · unfold inputFrames
    apply List.map_congr_left
    intro j hj
    rw [List.mem_range] at hj
    show frameAt (s.write samples n).2 ((s.writeIndex - s.readIndex) + j) = _
    exact frameAt_write_new s samples n j hc h1 h2 hn hj

/-- A successful read returns `true`, delivers exactly the first `n` pending
frames into the destination, and leaves exactly the remaining pending frames
in the ring. -/
theorem read_success_spec (s : SharedAudioBuffer) (dest : Nat → Sample) (n : Nat)
    (hc : s.channels = kChannels) (h1 : s.readIndex ≤ s.writeIndex)
    (h2 : s.writeIndex - s.readIndex ≤ kRingBufferFrames)
    (hn : n ≤ s.availableToRead) :
    (s.read dest n).1 = true ∧
    outFrames (s.read dest n).2.1 n = (contents s).take n ∧
    contents (s.read dest n).2.2 = (contents s).drop n := by
  have hR := availableToRead_eq s h1 h2
  have hU : U64 = 18446744073709551616 := rfl
  have hcap : kRingBufferFrames = 4096 := rfl
  have hg : ¬(s.availableToRead < n) := by omega
  rw [hR] at hn
  -- decompose the pending contents at position n
  have hsplit : s.writeIndex - s.readIndex = n + ((s.writeIndex - s.readIndex) - n) := by
    omega
  have hcontents : contents s =
      (List.range n).map (frameAt s) ++
      ((List.range ((s.writeIndex - s.readIndex) - n)).map (n + ·)).map (frameAt s) := by
    unfold contents
    rw [hR]
    nth_rewrite 1 [hsplit]
    rw [List.range_add, List.map_append]
  have hlen : ((List.range n).map (frameAt s)).length = n := by simp
  unfold SharedAudioBuffer.read
  rw [if_neg hg]
  refine ⟨rfl, ?_, ?_⟩
  · rw [hcontents, List.take_left' hlen]
    unfold outFrames
    apply List.map_congr_left
    intro i hi
    rw [List.mem_range] at hi
    show (List.range kChannels).map
        (fun ch => readChunk s.channels s.audioData s.readIndex n dest (i * kChannels + ch)) =
      frameAt s i
    unfold frameAt
    rw [hc]
    apply List.map_congr_left
    intro ch hch
    rw [List.mem_range] at hch
    exact readChunk_written kChannels s.audioData s.readIndex n dest hi hch
  · rw [hcontents, List.drop_left' hlen, List.map_map]
    have havail : SharedAudioBuffer.availableToRead
        { s with readIndex := s.readIndex + n } =
        (s.writeIndex - s.readIndex) - n := by
      show sub64 s.writeIndex (s.readIndex + n) = _
      rw [sub64_eq (by omega) (by rw [hU]; omega)]
      omega
    unfold contents
    rw [havail]
    apply List.map_congr_left
    intro i hi
    rw [List.mem_range] at hi
    show frameAt { s with readIndex := s.readIndex + n } i = frameAt s (n + i)
    unfold frameAt
    show (List.range s.channels).map
        (fun ch => s.audioData (((s.readIndex + n + i) % kRingBufferFrames) *
          s.channels + ch)) =
      (List.range s.channels).map
        (fun ch => s.audioData (((s.readIndex + (n + i)) % kRingBufferFrames) *
          s.channels + ch))
    rw [Nat.add_assoc]

/-- Simulation: along any trace whose writes fit the free space and whose
reads fit the pending data, the ring buffer delivers exactly what the ideal
FIFO queue of frames delivers. -/
theorem runOps_fifo (ops : List Op) : ∀ s q, RBInv s → contents s = q →
    fits s ops = true → (runOps s ops).2 = (runFifo q ops).2 := by
  induction ops with
  | nil => intro s q _ _ _; rfl
  | cons op ops ih =>
    intro s q hInv hq hfits
    obtain ⟨hc, h1, h2⟩ := hInv
    cases op with
    | wr samples n =>
      rw [show fits s (Op.wr samples n :: ops) =
          (decide (n ≤ s.availableToWrite) && fits (s.write samples n).2 ops) from rfl,
        Bool.and_eq_true] at hfits
      obtain ⟨hle, hrest⟩ := hfits
      have hle' : n ≤ s.availableToWrite := of_decide_eq_true hle
      show (runOps (s.write samples n).2 ops).2 =
        (runFifo (q ++ inputFrames samples n kChannels) ops).2
      apply ih
      · exact RBInv_write s samples n ⟨hc, h1, h2⟩
      · rw [contents_write s samples n hc h1 h2 hle', hq]
      · exact hrest
    | rd n =>
      rw [show fits s (Op.rd n :: ops) =
          (decide (n ≤ s.availableToRead) && fits (s.read (fun _ => 0) n).2.2 ops) from rfl,
        Bool.and_eq_true] at hfits
      obtain ⟨hle, hrest⟩ := hfits
      have hle' : n ≤ s.availableToRead := of_decide_eq_true hle
      obtain ⟨-, hout, hrem⟩ := read_success_spec s (fun _ => 0) n hc h1 h2 hle'
      have htail : (runOps (s.read (fun _ => 0) n).2.2 ops).2 =
          (runFifo (q.drop n) ops).2 :=
        ih _ _ (RBInv_read s _ n ⟨hc, h1, h2⟩) (by rw [hrem, hq]) hrest
      show outFrames (s.read (fun _ => 0) n).2.1 n ::
          (runOps (s.read (fun _ => 0) n).2.2 ops).2 =
        q.take n :: (runFifo (q.drop n) ops).2
      rw [hout, hq, htail]

/-- The fresh buffer holds no pending frames. -/
theorem contents_initBuffer : contents initBuffer = [] := by
  unfold contents
  rw [show SharedAudioBuffer.availableToRead initBuffer = 0 from rfl]
  rfl

/-- Claim C1: for every sequence of writes and reads in which no write exceeds
the free space and no read exceeds the pending data, the frames delivered by
the reads are exactly the frames that were written, bit-identical and in write
order — the ring buffer (with its mod-capacity slot layout) behaves as an
ideal FIFO queue of frames.  Wrap-around traces are instances: `fits` allows
any pattern whose writes fit, including ones whose cumulative counts cross the
end of the circular storage arbitrarily often. -/
theorem write_read_roundtrip_fifo (ops : List Op) (h : fits initBuffer ops = true) :
    (runOps initBuffer ops).2 = (runFifo [] ops).2 :=
  runOps_fifo ops initBuffer [] RBInv_initBuffer contents_initBuffer h

/-- Claim C1 witness: a concrete write/read/read trace on the fresh buffer. -/
theorem write_read_roundtrip_fifo_witness :
    fits initBuffer [Op.wr (fun j => j + 10) 3, Op.rd 2, Op.rd 1] = true ∧
    (runOps initBuffer [Op.wr (fun j => j + 10) 3, Op.rd 2, Op.rd 1]).2 =
      (runFifo [] [Op.wr (fun j => j + 10) 3, Op.rd 2, Op.rd 1]).2 :=
  ⟨by decide, write_read_roundtrip_fifo _ (by decide)⟩

/-! ## Driver-side claim theorems -/

/-- Claim C8: `tryReconnect()` in the Connected state returns success without
any state change; whenever it fails the handle is null and the descriptor
closed (`fd = -1`, no partial state); and the post state is Connected exactly
when the call reported success (which happens precisely when already connected
or when open+map succeeds). -/
theorem tryReconnect_idempotent (st : SharedMemoryReader) (env : ShmEnv) :
    (st.buffer.isSome → tryReconnect st env = (true, st)) ∧
    ((tryReconnect st env).1 = false →
      (tryReconnect st env).2.buffer = none ∧ (tryReconnect st env).2.fd = -1) ∧
    ((tryReconnect st env).2.buffer.isSome ↔ (tryReconnect st env).1 = true) := by
  unfold tryReconnect
  cases hb : st.buffer with
  | some b => simp [hb]
  | none =>
    cases ho : env.openFd with
    | none => simp [hb]
    | some fd =>
      cases hm : env.mapped with
      | none => simp
      | some b => simp

/-- Claim C8 witness: already-connected reader reconnects trivially with no
state change. -/
theorem tryReconnect_idempotent_witness :
    (SharedMemoryReader.mk 3 (some initBuffer)).buffer.isSome = true ∧
    tryReconnect (SharedMemoryReader.mk 3 (some initBuffer)) (ShmEnv.mk none none) =
      (true, SharedMemoryReader.mk 3 (some initBuffer)) :=
  ⟨rfl, (tryReconnect_idempotent (SharedMemoryReader.mk 3 (some initBuffer))
    (ShmEnv.mk none none)).1 rfl⟩

/-- Claim C6: if a buffer is mapped but its `isActive` flag is false, the
consumer path fills the destination with silence and performs no read — the
handler state (hence `readIndex`) is unchanged; likewise the destination is
silence when no buffer is mapped and reconnection fails. -/
theorem consumer_inactive_silence (st : SharedMemoryReader) (env : ShmEnv)
    (dest : Nat → Sample) (bytesCount : Nat) :
    (∀ b, st.buffer = some b → b.isActive = false →
      (∀ j, j < bytesCount / 4 → (OnReadClientInput st env dest bytesCount).1 j = 0) ∧
      (OnReadClientInput st env dest bytesCount).2 = st) ∧
    (st.buffer = none → (tryReconnect st env).1 = false →
      ∀ j, j < bytesCount / 4 → (OnReadClientInput st env dest bytesCount).1 j = 0) := by
  constructor
  · intro b hb hact
    simp only [OnReadClientInput, hb, Option.isNone_some, Bool.false_eq_true, if_false, hact]
    refine ⟨fun j hj => ?_, trivial⟩
    show memsetZero dest bytesCount j = 0
    unfold memsetZero
    rw [if_pos hj]
  · intro hb hfail
    have hnone : (tryReconnect st env).2.buffer = none := by
      unfold tryReconnect at hfail ⊢
      rw [hb] at hfail ⊢
      cases ho : env.openFd with
      | none => simp
      | some fd =>
        cases hm : env.mapped with
        | none => simp
        | some b2 =>
          rw [ho, hm] at hfail
          simp at hfail
    intro j hj
    simp only [OnReadClientInput, hb, Option.isNone_none, if_true, hnone]
    show memsetZero dest bytesCount j = 0
    unfold memsetZero
    rw [if_pos hj]

/-- Claim C6 witness: a mapped but inactive buffer yields silence and no state
change. -/
theorem consumer_inactive_silence_witness :
    (SharedMemoryReader.mk 3 (some initBuffer)).buffer = some initBuffer ∧
    initBuffer.isActive = false ∧
    ((∀ j, j < 16 / 4 →
        (OnReadClientInput (SharedMemoryReader.mk 3 (some initBuffer))
          (ShmEnv.mk none none) (fun _ => 5) 16).1 j = 0) ∧
      (OnReadClientInput (SharedMemoryReader.mk 3 (some initBuffer))
        (ShmEnv.mk none none) (fun _ => 5) 16).2 =
        SharedMemoryReader.mk 3 (some initBuffer)) :=
  ⟨rfl, rfl,
   (consumer_inactive_silence (SharedMemoryReader.mk 3 (some initBuffer))
     (ShmEnv.mk none none) (fun _ => 5) 16).1 initBuffer rfl rfl⟩

/-- A `read` only returns `true` when the requested frames were pending. -/
theorem read_true_avail (b : SharedAudioBuffer) (dest : Nat → Sample) (n : Nat)
    (h : (b.read dest n).1 = true) : n ≤ b.availableToRead := by
  by_cases hg : b.availableToRead < n
  · unfold SharedAudioBuffer.read at h
    rw [if_pos hg] at h
    exact absurd h (by simp)
  · omega

/-- On a successful read of a `kChannels`-channel buffer, destination position
`i * ChannelCount + ch` holds the ring sample of slot
`(readIndex + i) % kRingBufferFrames`, channel `ch`. -/
theorem read_success_out (b : SharedAudioBuffer) (dest : Nat → Sample) (n : Nat)
    (hbch : b.channels = kChannels) (hav : n ≤ b.availableToRead) (i ch : Nat)
    (hi : i < n) (hch : ch < ChannelCount) :
    (b.read dest n).2.1 (i * ChannelCount + ch) =
      b.audioData (((b.readIndex + i) % kRingBufferFrames) * ChannelCount + ch) := by
  have hCC : ChannelCount = kChannels := rfl
  unfold SharedAudioBuffer.read
  rw [if_neg (by omega)]
  show readChunk b.channels b.audioData b.readIndex n dest (i * ChannelCount + ch) = _
  rw [hbch, hCC]
  exact readChunk_written kChannels b.audioData b.readIndex n dest hi hch

/-- The modelled `memset` zeroes every fully covered float. -/
theorem memsetZero_small (dest : Nat → Sample) (bytesCount j : Nat)
    (hj : j < bytesCount / 4) : memsetZero dest bytesCount j = 0 := by
  unfold memsetZero
  rw [if_pos hj]

/-- The samples the handler must fill are all fully covered by `memset`:
`numSamples * ChannelCount <= bytesCount / 4`. -/
theorem numSamples_le (bytesCount : Nat) :
    (bytesCount / 4 / ChannelCount) * ChannelCount ≤ bytesCount / 4 := by
  have h : ChannelCount = 2 := rfl
  rw [h]
  omega

/-- Claim C7: the consumer callback is total — whatever the connection state,
liveness flag and data availability, it fills every one of the
`bytesCount / (4 * channelCount)` destination frames: either all are silence
(zeros), or all hold the pending ring samples (in which case the producer was
active, a buffer was mapped, and enough frames were pending).  No case leaves
the destination partially filled. -/
theorem consumer_total_fill (st : SharedMemoryReader) (env : ShmEnv)
    (dest : Nat → Sample) (bytesCount : Nat)
    (hst : ∀ b, st.buffer = some b → b.channels = kChannels)
    (henv : ∀ b, env.mapped = some b → b.channels = kChannels) :
    (∀ j, j < (bytesCount / 4 / ChannelCount) * ChannelCount →
        (OnReadClientInput st env dest bytesCount).1 j = 0) ∨
    (∃ b, (st.buffer = some b ∨ env.mapped = some b) ∧ b.isActive = true ∧
        bytesCount / 4 / ChannelCount ≤ b.availableToRead ∧
        ∀ i ch, i < bytesCount / 4 / ChannelCount → ch < ChannelCount →
          (OnReadClientInput st env dest bytesCount).1 (i * ChannelCount + ch) =
            b.audioData (((b.readIndex + i) % kRingBufferFrames) * ChannelCount + ch)) := by
  have hle := numSamples_le bytesCount
  cases hb : st.buffer with
  | some b =>
    have hbch := hst b hb
    simp only [OnReadClientInput, hb, Option.isNone_some, Bool.false_eq_true, if_false]
    by_cases hact : b.isActive = true
    · simp only [hact, if_true]
      by_cases hrd : (b.read dest (bytesCount / 4 / ChannelCount)).1 = true
      · simp only [hrd, if_true]
        right
        refine ⟨b, Or.inl rfl, hact, read_true_avail _ _ _ hrd, ?_⟩
        intro i ch hi hch
        exact read_success_out b dest _ hbch (read_true_avail _ _ _ hrd) i ch hi hch
      · simp only [if_neg hrd]
        left
        intro j hj
        exact memsetZero_small _ _ _ (by omega)
    · simp only [if_neg hact]
      left
      intro j hj
      exact memsetZero_small _ _ _ (by omega)
  | none =>
    cases ho : env.openFd with
    | none =>
      have h1 : (tryReconnect st env).2.buffer = none := by
        simp [tryReconnect, hb, ho]
      simp only [OnReadClientInput, hb, Option.isNone_none, if_true, h1]
      left
      intro j hj
      exact memsetZero_small _ _ _ (by omega)
    | some fd =>
      cases hm : env.mapped with
      | none =>
        have h1 : (tryReconnect st env).2.buffer = none := by
          simp [tryReconnect, hb, ho, hm]
        simp only [OnReadClientInput, hb, Option.isNone_none, if_true, h1]
        left
        intro j hj
        exact memsetZero_small _ _ _ (by omega)
      | some b =>
        have hbch := henv b hm
        have h1 : (tryReconnect st env).2.buffer = some b := by
          simp [tryReconnect, hb, ho, hm]
        simp only [OnReadClientInput, hb, Option.isNone_none, if_true, h1]
        by_cases hact : b.isActive = true
        · simp only [hact, if_true]
          by_cases hrd : (b.read dest (bytesCount / 4 / ChannelCount)).1 = true
          · simp only [hrd, if_true]
            right
            refine ⟨b, Or.inr rfl, hact, read_true_avail _ _ _ hrd, ?_⟩
            intro i ch hi hch
            exact read_success_out b dest _ hbch (read_true_avail _ _ _ hrd) i ch hi hch
          · simp only [if_neg hrd]
            left
            intro j hj
            exact memsetZero_small _ _ _ (by omega)
        · simp only [if_neg hact]
          left
          intro j hj
          exact memsetZero_small _ _ _ (by omega)

/-- Claim C7 witness: hypotheses hold for an unconnected reader with no
segment available, and the handler emits silence. -/
theorem consumer_total_fill_witness :
    (∀ b, (SharedMemoryReader.mk (-1) none).buffer = some b → b.channels = kChannels) ∧
    (∀ b, (ShmEnv.mk none none).mapped = some b → b.channels = kChannels) ∧
    ((∀ j, j < (16 / 4 / ChannelCount) * ChannelCount →
        (OnReadClientInput (SharedMemoryReader.mk (-1) none) (ShmEnv.mk none none)
          (fun _ => 5) 16).1 j = 0) ∨
     (∃ b, ((SharedMemoryReader.mk (-1) none).buffer = some b ∨
          (ShmEnv.mk none none).mapped = some b) ∧ b.isActive = true ∧
        16 / 4 / ChannelCount ≤ b.availableToRead ∧
        ∀ i ch, i < 16 / 4 / ChannelCount → ch < ChannelCount →
          (OnReadClientInput (SharedMemoryReader.mk (-1) none) (ShmEnv.mk none none)
            (fun _ => 5) 16).1 (i * ChannelCount + ch) =
            b.audioData (((b.readIndex + i) % kRingBufferFrames) * ChannelCount + ch))) :=
  ⟨fun _ hb => Option.noConfusion hb, fun _ hb => Option.noConfusion hb,
   consumer_total_fill (SharedMemoryReader.mk (-1) none) (ShmEnv.mk none none)
     (fun _ => 5) 16 (fun _ hb => Option.noConfusion hb)
     (fun _ hb => Option.noConfusion hb)⟩
